import Mathlib

/-!
# Verification of the rust-simplicity Bitcoin extension codec and policy compiler

A shallow embedding of `src/extension/bitcoin.rs` and `src/policy/compiler.rs`,
with theorems settling the specification's claims about the extension-node
codec, the commitment tags, and the policy-to-term compiler.

Bit streams are `List Bool`, most-significant-bit first within each field,
matching the documented bit-exact contract of the bit source/sink
capabilities. Machine integers are `Nat` with explicit `% 2^w` at the one
place the source truncates (`k as u32`).
-/

namespace Simplicity

/-- The 18 Bitcoin extension-node variants, in source declaration order
(`enum Node` in `extension/bitcoin.rs`). -/
inductive Node
  | Version
  | LockTime
  | InputsHash
  | OutputsHash
  | NumInputs
  | TotalInputValue
  | CurrentPrevOutpoint
  | CurrentValue
  | CurrentSequence
  | CurrentIndex
  | InputPrevOutpoint
  | InputValue
  | InputSequence
  | NumOutputs
  | TotalOutputValue
  | OutputValue
  | OutputScriptHash
  | ScriptCMR
deriving DecidableEq, Repr

/-- All 18 variants in declaration order. -/
def allNodes : List Node :=
  [.Version, .LockTime, .InputsHash, .OutputsHash, .NumInputs, .TotalInputValue,
   .CurrentPrevOutpoint, .CurrentValue, .CurrentSequence, .CurrentIndex,
   .InputPrevOutpoint, .InputValue, .InputSequence, .NumOutputs,
   .TotalOutputValue, .OutputValue, .OutputScriptHash, .ScriptCMR]

/-- Write `len` bits of `val`, most-significant bit first: the embedding of
`BitWrite::write_u8(val, len)` under the spec's MSB-first bit contract. -/
def natToBits : Nat → Nat → List Bool
  | 0, _ => []
  | n + 1, val => val.testBit n :: natToBits n val

/-- Value of an MSB-first bit string. -/
def bitsToNat : List Bool → Nat
  | [] => 0
  | b :: r => (if b then 1 else 0) * 2 ^ r.length + bitsToNat r

/-- Modelled from the spec: the bit-source capability (`BitIter`, outside
`src/`) reads `n` bits MSB-first as an unsigned integer, failing when the
source is exhausted (§4.3, §6 of the spec). Returns the value and the
remaining stream. -/
def readBitsBe (n : Nat) (bs : List Bool) : Option (Nat × List Bool) :=
  if bs.length < n then none else some (bitsToNat (bs.take n), bs.drop n)

/-- Embedding of `Node::encode_node`: each variant writes one codeword already embedding
the 2-bit extension prefix; the 6- and 7-bit values are transcribed from the
source line by line. -/
def encode_node : Node → List Bool
  | .Version => natToBits 7 (64 + 0)
  | .LockTime => natToBits 7 (64 + 1)
  | .InputsHash => natToBits 6 (32 + 1)
  | .OutputsHash => natToBits 6 (32 + 2)
  | .NumInputs => natToBits 6 (32 + 3)
  | .TotalInputValue => natToBits 6 (32 + 4)
  | .CurrentPrevOutpoint => natToBits 6 (32 + 5)
  | .CurrentValue => natToBits 6 (32 + 6)
  | .CurrentSequence => natToBits 6 (32 + 7)
  | .CurrentIndex => natToBits 7 (64 + 16)
  | .InputPrevOutpoint => natToBits 7 (64 + 17)
  | .InputValue => natToBits 6 (32 + 9)
  | .InputSequence => natToBits 6 (32 + 10)
  | .NumOutputs => natToBits 6 (32 + 11)
  | .TotalOutputValue => natToBits 6 (32 + 12)
  | .OutputValue => natToBits 6 (32 + 13)
  | .OutputScriptHash => natToBits 6 (32 + 14)
  | .ScriptCMR => natToBits 6 (32 + 15)

/-- Result of `decode_node`: a decoded variant with the remaining stream, an
`Error::EndOfStream`, or the `unreachable!()` arm (modelled explicitly so
that its unreachability is a provable statement). -/
inductive DecodeResult
  | ok (n : Node) (rest : List Bool)
  | endOfStream
  | panicked
deriving DecidableEq, Repr

/-- Embedding of `decode_node`: assumes the 2-bit extension prefix was already consumed,
reads a 4-bit code, and for codes 0 and 8 one further disambiguating bit.
The Rust `match iter.next()` on the extra bit is modelled by matching the
head of the remaining stream. -/
def decode_node (bs : List Bool) : DecodeResult :=
  match readBitsBe 4 bs with
  | none => .endOfStream
  | some (code, rest) =>
    match code, rest with
    | 0, [] => .endOfStream
    | 0, false :: r => .ok .Version r
    | 0, true :: r => .ok .LockTime r
    | 1, rest => .ok .InputsHash rest
    | 2, rest => .ok .OutputsHash rest
    | 3, rest => .ok .NumInputs rest
    | 4, rest => .ok .TotalInputValue rest
    | 5, rest => .ok .CurrentPrevOutpoint rest
    | 6, rest => .ok .CurrentValue rest
    | 7, rest => .ok .CurrentSequence rest
    | 8, [] => .endOfStream
    | 8, false :: r => .ok .CurrentIndex r
    | 8, true :: r => .ok .InputPrevOutpoint r
    | 9, rest => .ok .InputValue rest
    | 10, rest => .ok .InputSequence rest
    | 11, rest => .ok .NumOutputs rest
    | 12, rest => .ok .TotalOutputValue rest
    | 13, rest => .ok .OutputValue rest
    | 14, rest => .ok .OutputScriptHash rest
    | 15, rest => .ok .ScriptCMR rest
    | _, _ => .panicked

/-- The 4-bit code of each variant, as read back by `decode_node` (codes 0
and 8 are shared by the two pairs that need a disambiguating bit). -/
def btcCode : Node → Nat
  | .Version => 0
  | .LockTime => 0
  | .InputsHash => 1
  | .OutputsHash => 2
  | .NumInputs => 3
  | .TotalInputValue => 4
  | .CurrentPrevOutpoint => 5
  | .CurrentValue => 6
  | .CurrentSequence => 7
  | .CurrentIndex => 8
  | .InputPrevOutpoint => 8
  | .InputValue => 9
  | .InputSequence => 10
  | .NumOutputs => 11
  | .TotalOutputValue => 12
  | .OutputValue => 13
  | .OutputScriptHash => 14
  | .ScriptCMR => 15

/-- The byte-string tag passed to `Cmr::new` for each variant, transcribed
from `Node::cmr` exactly as the Rust byte literals read: the first three
variants contain the escape `\x1f` (byte 0x1f), the remaining fifteen
contain the three literal characters `x`, `1`, `f`. -/
def cmrTag : Node → String
  | .Version => "SimplicityPrimitiveBitcoin\x1fversion"
  | .LockTime => "SimplicityPrimitiveBitcoin\x1flockTime"
  | .InputsHash => "SimplicityPrimitiveBitcoin\x1finputsHash"
  | .OutputsHash => "SimplicityPrimitiveBitcoinx1foutputsHash"
  | .NumInputs => "SimplicityPrimitiveBitcoinx1fnumInputs"
  | .TotalInputValue => "SimplicityPrimitiveBitcoinx1ftotalInputValue"
  | .CurrentPrevOutpoint => "SimplicityPrimitiveBitcoinx1fcurrentPrevOutpoint"
  | .CurrentValue => "SimplicityPrimitiveBitcoinx1fcurrentValue"
  | .CurrentSequence => "SimplicityPrimitiveBitcoinx1fcurrentSequence"
  | .CurrentIndex => "SimplicityPrimitiveBitcoinx1fcurrentIndex"
  | .InputPrevOutpoint => "SimplicityPrimitiveBitcoinx1finputPrevOutpoint"
  | .InputValue => "SimplicityPrimitiveBitcoinx1finputValue"
  | .InputSequence => "SimplicityPrimitiveBitcoinx1finputSequence"
  | .NumOutputs => "SimplicityPrimitiveBitcoinx1fnumOutputs"
  | .TotalOutputValue => "SimplicityPrimitiveBitcoinx1ftotalOutputValue"
  | .OutputValue => "SimplicityPrimitiveBitcoinx1foutputValue"
  | .OutputScriptHash => "SimplicityPrimitiveBitcoinx1foutputScriptHash"
  | .ScriptCMR => "SimplicityPrimitiveBitcoinx1fscriptCMR"

/-- Each variant's canonical lower-camel-case name (the suffix after the
namespace and separator in the commitment tags). -/
def camelName : Node → String
  | .Version => "version"
  | .LockTime => "lockTime"
  | .InputsHash => "inputsHash"
  | .OutputsHash => "outputsHash"
  | .NumInputs => "numInputs"
  | .TotalInputValue => "totalInputValue"
  | .CurrentPrevOutpoint => "currentPrevOutpoint"
  | .CurrentValue => "currentValue"
  | .CurrentSequence => "currentSequence"
  | .CurrentIndex => "currentIndex"
  | .InputPrevOutpoint => "inputPrevOutpoint"
  | .InputValue => "inputValue"
  | .InputSequence => "inputSequence"
  | .NumOutputs => "numOutputs"
  | .TotalOutputValue => "totalOutputValue"
  | .OutputValue => "outputValue"
  | .OutputScriptHash => "outputScriptHash"
  | .ScriptCMR => "scriptCMR"

/-- The tag the spec's words describe (§4.3): the namespace
`SimplicityPrimitiveBitcoin`, the separator byte 0x1f, then the variant's
canonical lower-camel-case name. Stated only for comparison with `cmrTag`,
the tag the source actually hashes. -/
def cmrTagSpec (v : Node) : String :=
  "SimplicityPrimitiveBitcoin" ++ "\x1f" ++ camelName v

/-- Every bit string's MSB-first value is below `2 ^ length`. -/
theorem bitsToNat_lt : ∀ l : List Bool, bitsToNat l < 2 ^ l.length
  | [] => by simp [bitsToNat]
  | b :: r => by
    have h := bitsToNat_lt r
    cases b <;> simp [bitsToNat, pow_succ] <;> omega

/-- C1: for every one of the 18 Bitcoin extension-node variants `v`,
encoding `v` with `encode_node` and then decoding the codeword with its
leading 2 prefix bits stripped via `decode_node` reproduces exactly `v`
(and consumes the whole codeword). -/
theorem C1_encode_decode_roundtrip :
    ∀ v : Node, decode_node ((encode_node v).drop 2) = .ok v [] := by
  intro v; cases v <;> rfl

/-- C7 counterexample: it is not the case that exactly 16 variants write a
6-bit codeword in `encode_node`; the count is 14, not 16. -/
theorem C7_counterexample :
    ¬ (allNodes.filter fun v => (encode_node v).length == 6).length = 16 := by
  decide

/-- C7 (amended): exactly 14 variants write a 6-bit codeword whose value is
32 plus their 4-bit code (the code `decode_node` reads back); exactly 2
variants (Version, LockTime) write a 7-bit codeword equal to 64 plus 0 or 1;
and exactly 2 variants (CurrentIndex, InputPrevOutpoint) write a 7-bit
codeword equal to 64 plus 16 or 17, each codeword embedding the 2-bit
extension prefix. -/
theorem C7_codeword_table :
    (allNodes.filter fun v => (encode_node v).length == 6).length = 14 ∧
    (allNodes.filter fun v => (encode_node v).length == 7) =
      [Node.Version, Node.LockTime, Node.CurrentIndex, Node.InputPrevOutpoint] ∧
    (allNodes.all fun v =>
      ((encode_node v).length != 6) ||
        ((bitsToNat (encode_node v) == 32 + btcCode v) &&
          (decode_node (natToBits 4 (btcCode v)) == DecodeResult.ok v []))) = true ∧
    bitsToNat (encode_node .Version) = 64 + 0 ∧
    bitsToNat (encode_node .LockTime) = 64 + 1 ∧
    bitsToNat (encode_node .CurrentIndex) = 64 + 16 ∧
    bitsToNat (encode_node .InputPrevOutpoint) = 64 + 17 := by
  refine ⟨by decide, by decide, by decide, rfl, rfl, rfl, rfl⟩

/-- C2: the commitment-tag table does not hash the domain-separated tag
`"SimplicityPrimitiveBitcoin" ++ 0x1f ++ camelName` uniformly for all 18
variants: only Version, LockTime and InputsHash carry the 0x1f separator
byte; the other fifteen (OutputsHash here as the concrete failing input)
carry the three literal characters `x`, `1`, `f` instead — a missing
backslash escape in the source byte literals. -/
theorem C2_cmr_tag_separator_bug :
    (allNodes.filter fun v => cmrTag v == cmrTagSpec v) =
      [Node.Version, Node.LockTime, Node.InputsHash] ∧
    cmrTag Node.OutputsHash ≠ cmrTagSpec Node.OutputsHash := by
  constructor
  · rfl
  · decide

/-- C9: `decode_node` is panic-free: the 4-bit code is always in `[0, 15]`,
so the `unreachable!()` catch-all arm is never executed; on every input bit
stream the result is either a decoded variant or an end-of-stream error. -/
theorem C9_decode_node_total :
    ∀ bs : List Bool,
      decode_node bs ≠ DecodeResult.panicked ∧
      ((∃ n rest, decode_node bs = DecodeResult.ok n rest) ∨
        decode_node bs = DecodeResult.endOfStream) := by
  intro bs
  unfold decode_node readBitsBe
  by_cases h : bs.length < 4
  · simp [h]
  · have h4 : (bs.take 4).length = 4 := by
      simp [List.length_take]; omega
    have hc : bitsToNat (bs.take 4) < 16 := by
      have hb := bitsToNat_lt (bs.take 4)
      rw [h4] at hb; exact hb
    simp only [h, if_false]
    generalize bitsToNat (bs.take 4) = c at hc
    interval_cases c <;>
      first
        | exact ⟨by simp, Or.inl ⟨_, _, rfl⟩⟩
        | (cases hrest : bs.drop 4 with
            | nil => simp
            | cons b r => cases b <;> simp)

/-! ## The policy compiler (`policy/compiler.rs`) -/

/-- The recursive value model (§3): unit, left/right injection, product. -/
inductive Value
  | Unit
  | SumL (v : Value)
  | SumR (v : Value)
  | Prod (l r : Value)
deriving DecidableEq, Repr

/-- The jets the compiler touches (`JetsNode` imports in `compiler.rs`). -/
inductive JetsNode
  | Adder32 | EqV256 | EqV32 | LessThanV32 | SchnorrAssert | Sha256
deriving DecidableEq, Repr

/-- The combinator term model (`DagTerm<(), BtcNode>`), with the node kinds
the spec's data model lists: unit, left/right injection, pairing,
composition, case branch, left-discard, witness leaf (payload `()`), jet
leaf, extension leaf. `Rc` sharing is irrelevant to term identity, so
sub-terms are plain sub-trees. -/
inductive DagTerm
  | Unit
  | InjL (t : DagTerm)
  | InjR (t : DagTerm)
  | Pair (s t : DagTerm)
  | Comp (s t : DagTerm)
  | Case (s t : DagTerm)
  | Drop (t : DagTerm)
  | Witness
  | Jet (j : JetsNode)
  | Ext (b : Node)
deriving DecidableEq, Repr

/-- Embedding of `scribe`: the constant-producing term for a value, by structural
recursion. Transcribed arm for arm: note that the source's `SumR` arm also
builds `InjL`. -/
def scribe : Value → DagTerm
  | .Unit => .Unit
  | .SumL l => .InjL (scribe l)
  | .SumR r => .InjL (scribe r)
  | .Prod l r => .Pair (scribe l) (scribe r)

/-- Embedding of `zero()`: the scribed canonical false constant, `scribe(sum_l(Unit))`. -/
def zero : DagTerm := scribe (.SumL .Unit)

/-- Embedding of `one()`: the scribed canonical true constant, `scribe(sum_r(Unit))`. -/
def one : DagTerm := scribe (.SumR .Unit)

/-- Embedding of `cond(s, t)`: branch on a bit with case and drop; `s` is the then
clause, `t` the else clause. -/
def cond (s t : DagTerm) : DagTerm :=
  .Case (.Drop s) (.Drop t)

/-- Modelled from the spec: the `Value::u1/u2/…/u32` word constructors live
outside `src/`; per §3 and §4.4 a `2^(2^d)`-bit word value is the balanced
product of its high and low halves (high first, matching `u1_to_u2`'s
left-pairing of the zero padding), down to single bits, where bit 0 is the
left injection of unit (the source's `sum_l`, i.e. `zero()`) and bit 1 the
right injection. -/
def valuePow2 : Nat → Nat → Value
  | 0, x => if x % 2 = 1 then .SumR .Unit else .SumL .Unit
  | d + 1, x => .Prod (valuePow2 d (x / 2 ^ 2 ^ d)) (valuePow2 d (x % 2 ^ 2 ^ d))

/-- Embedding of `Value::u32`: the 32-bit word value of `x` (32 = 2^5). -/
def valueU32 (x : Nat) : Value := valuePow2 5 x

/-- Embedding of `u1_to_u2`: widen a bit by left-pairing a scribed zero bit. -/
def u1_to_u2 (s : DagTerm) : DagTerm := .Pair (scribe (valuePow2 0 0)) s

/-- Embedding of `u1_to_u4`. -/
def u1_to_u4 (s : DagTerm) : DagTerm := .Pair (scribe (valuePow2 1 0)) (u1_to_u2 s)

/-- Embedding of `u1_to_u8`. -/
def u1_to_u8 (s : DagTerm) : DagTerm := .Pair (scribe (valuePow2 2 0)) (u1_to_u4 s)

/-- Embedding of `u1_to_u16`. -/
def u1_to_u16 (s : DagTerm) : DagTerm := .Pair (scribe (valuePow2 3 0)) (u1_to_u8 s)

/-- Embedding of `u1_to_u32`. -/
def u1_to_u32 (s : DagTerm) : DagTerm := .Pair (scribe (valuePow2 4 0)) (u1_to_u16 s)

/-- The decode-path error type (`Error::EndOfStream` is the only variant the
embedded code raises). -/
inductive Error
  | EndOfStream
deriving DecidableEq, Repr

/-- Outcome of `compile`: an `Ok` term, a propagated `Err`, or a Rust panic
(`assert!` failure or `unimplemented!()`), modelled as a distinct outcome so
that "returns an error" and "panics" are distinguishable statements. -/
inductive CRes (α : Type)
  | ok (a : α)
  | err (e : Error)
  | panicked
deriving DecidableEq, Repr

/-- Modelled from the spec: `Value::from_bits_and_type` (outside `src/`)
specialised to the `2^(2^d)`-bit word types the compiler uses (§4.1): decode
a bit per leaf, high half before low half, failing with end-of-stream when
the source is exhausted. Returns the value and the remaining stream. -/
def fromBitsPow2 : Nat → List Bool → Option (Value × List Bool)
  | 0, [] => none
  | 0, b :: r => some (if b then .SumR .Unit else .SumL .Unit, r)
  | d + 1, bs =>
    match fromBitsPow2 d bs with
    | none => none
    | some (hi, r1) =>
      match fromBitsPow2 d r1 with
      | none => none
      | some (lo, r2) => some (.Prod hi lo, r2)

/-- The policy AST (`policy/ast.rs` shape as consumed by the compiler). A
key is carried as its 32-byte public key bit stream (what
`pk.to_32_byte_pubkey()` feeds the bit iterator); a Sha256 leaf as its
32-byte digest bit stream. `Threshold`'s `k` is the Rust `usize`. -/
inductive Policy
  | Unsatisfiable
  | Trivial
  | Key (pk : List Bool)
  | Sha256 (h : List Bool)
  | After (n : Nat)
  | Older (n : Nat)
  | Threshold (k : Nat) (subs : List Policy)
  | And (subs : List Policy)
  | Or (subs : List Policy)

mutual

/-- Embedding of `compile`: lower a policy to a term. The `assert!` arity guards of the
Threshold/And/Or arms are the `.panicked` fall-through arms; `Unsatisfiable`
is `unimplemented!()`. In the Threshold arm the accumulator chaining the
gated branch executions is threaded through `threshLoop` exactly as the
source's `acc` variable is, and — like the source — only the running sum is
used in the returned term. `*k as u32` is the explicit `% 2^32`. -/
def compile : Policy → CRes DagTerm
  | .Unsatisfiable => .panicked
  | .Trivial => .ok .Unit
  | .Key pk =>
    match fromBitsPow2 8 pk with
    | none => .err .EndOfStream
    | some (pkv, _) =>
      .ok (.Comp (.Pair (scribe pkv) .Witness) (.Jet .SchnorrAssert))
  | .Sha256 h =>
    match fromBitsPow2 8 h with
    | none => .err .EndOfStream
    | some (hv, _) =>
      .ok (.Comp (.Pair (scribe hv) (.Comp .Witness (.Jet .Sha256))) (.Jet .EqV256))
  | .After n =>
    .ok (.Comp (.Pair (scribe (valueU32 n)) (.Ext .LockTime)) (.Jet .LessThanV32))
  | .Older n =>
    .ok (.Comp (.Pair (scribe (valueU32 n)) (.Ext .CurrentSequence)) (.Jet .LessThanV32))
  | .Threshold k subs =>
    match subs with
    | s0 :: s1 :: rest =>
      match compile s0 with
      | .ok child =>
        match threshLoop (s1 :: rest)
            (.Comp .Witness (cond child .Unit)) (u1_to_u32 .Witness) with
        | .ok (_, sum) =>
          .ok (.Comp (.Pair (scribe (valueU32 (k % 4294967296))) sum) (.Jet .EqV32))
        | .err e => .err e
        | .panicked => .panicked
      | .err e => .err e
      | .panicked => .panicked
    | _ => .panicked
  | .And subs =>
    match subs with
    | [a, b] =>
      match compile a with
      | .ok l =>
        match compile b with
        | .ok r => .ok (.Comp l r)
        | .err e => .err e
        | .panicked => .panicked
      | .err e => .err e
      | .panicked => .panicked
    | _ => .panicked
  | .Or subs =>
    match subs with
    | [a, b] =>
      match compile a with
      | .ok l =>
        match compile b with
        | .ok r => .ok (.Comp .Witness (cond l r))
        | .err e => .err e
        | .panicked => .panicked
      | .err e => .err e
      | .panicked => .panicked
    | _ => .panicked

/-- The `for sub in &subs[1..]` loop of the Threshold arm: per iteration the
branch accumulator becomes `Comp(acc, Comp(selector, cond(child, Unit)))`
and the running sum becomes `Drop(Comp(Pair(sum, u1_to_u32(selector)),
Adder32))` (the `Drop` discards the adder's overflow bit). -/
def threshLoop : List Policy → DagTerm → DagTerm → CRes (DagTerm × DagTerm)
  | [], acc, sum => .ok (acc, sum)
  | sub :: rest, acc, sum =>
    match compile sub with
    | .ok child =>
      threshLoop rest
        (.Comp acc (.Comp .Witness (cond child .Unit)))
        (.Drop (.Comp (.Pair sum (u1_to_u32 .Witness)) (.Jet .Adder32)))
    | .err e => .err e
    | .panicked => .panicked

end

/-- Modelled from the spec: runtime execution of terms is an external
collaborator (§1). The evaluation rules follow the spec's data model (§3)
and the source's documented equations for `cond` — the doc comment
`[[cond st]] <0, a> = [[s]](a); [[cond st]] <1, a> = [[t]](a)` together with
`cond s t = Case(Drop s, Drop t)` pins the case combinator to selecting its
first arm on the left (0) tag. Witness, jet and extension leaves consume
external data and are left undefined. -/
def eval : DagTerm → Value → Option Value
  | .Unit, _ => some .Unit
  | .InjL t, v => (eval t v).map .SumL
  | .InjR t, v => (eval t v).map .SumR
  | .Pair s t, v =>
    match eval s v, eval t v with
    | some a, some b => some (.Prod a b)
    | _, _ => none
  | .Comp s t, v =>
    match eval s v with
    | some a => eval t a
    | none => none
  | .Case s t, v =>
    match v with
    | .Prod (.SumL a) c => eval s (.Prod a c)
    | .Prod (.SumR b) c => eval t (.Prod b c)
    | _ => none
  | .Drop t, v =>
    match v with
    | .Prod _ b => eval t b
    | _ => none
  | .Witness, _ => none
  | .Jet _, _ => none
  | .Ext _, _ => none

/-- Whether a term contains a case node (the only construct that branches on
a runtime sum tag, hence the footprint of every `cond` gate). -/
def hasCase : DagTerm → Bool
  | .Case _ _ => true
  | .InjL t => hasCase t
  | .InjR t => hasCase t
  | .Drop t => hasCase t
  | .Pair s t => hasCase s || hasCase t
  | .Comp s t => hasCase s || hasCase t
  | _ => false

/-- C3: `scribe` does not mirror the value's algebraic shape on right
injections: at the failing input `SumR(Unit)` it produces the left-injection
term `InjL(Unit)` instead of a right-injection term — so the claim's
right-injection case contradicts the code, while its unit, left-injection
and product cases hold definitionally. -/
theorem C3_scribe_sumr_builds_injl :
    scribe (Value.SumR Value.Unit) = DagTerm.InjL DagTerm.Unit ∧
    DagTerm.InjL DagTerm.Unit ≠ DagTerm.InjR (scribe Value.Unit) := by
  refine ⟨rfl, by decide⟩

/-- C8: `zero()` and `one()` return structurally identical terms; both are
the left injection of the unit term. -/
theorem C8_zero_eq_one :
    zero = DagTerm.InjL DagTerm.Unit ∧
    one = DagTerm.InjL DagTerm.Unit ∧
    zero = one :=
  ⟨rfl, rfl, rfl⟩

/-- C4: at the failing input `Threshold(2, [Trivial, Trivial])` the compiled
term is only the sum/equality circuit — the chain of selector-gated branch
executions (the source's `acc`) is built and then dropped, so the result
contains no case node at all, contradicting the claim's part (1); the
widening/adder accumulation and the final `Pair(scribe k, sum); EqV32`
(parts (2) and (3)) are exactly what remains. -/
theorem C4_threshold_branches_discarded :
    compile (.Threshold 2 [.Trivial, .Trivial]) =
      .ok (.Comp
        (.Pair (scribe (valueU32 2))
          (.Drop (.Comp (.Pair (u1_to_u32 .Witness) (u1_to_u32 .Witness))
            (.Jet .Adder32))))
        (.Jet .EqV32)) ∧
    hasCase (.Comp
        (.Pair (scribe (valueU32 2))
          (.Drop (.Comp (.Pair (u1_to_u32 .Witness) (u1_to_u32 .Witness))
            (.Jet .Adder32))))
        (.Jet .EqV32)) = false := by
  refine ⟨rfl, rfl⟩

/-- C5 counterexample: a 0-tagged (left) input to `cond(then, else)` routes
to the then clause, not the else clause. With the distinguishable clauses
`then = InjL Unit` and `else = InjR Unit`, the 0-tagged input produces the
then clause's output `SumL Unit`, which differs from the else clause's
output `SumR Unit`. -/
theorem C5_counterexample :
    eval (cond (DagTerm.InjL DagTerm.Unit) (DagTerm.InjR DagTerm.Unit))
        (Value.Prod (Value.SumL Value.Unit) Value.Unit) =
      some (Value.SumL Value.Unit) ∧
    eval (DagTerm.InjR DagTerm.Unit) Value.Unit = some (Value.SumR Value.Unit) ∧
    some (Value.SumL Value.Unit) ≠ some (Value.SumR Value.Unit) := by
  refine ⟨rfl, rfl, by decide⟩

/-- C5 (amended): `cond(s, t)` builds `Case(Drop s, Drop t)`; a 0-tagged
(left) input routes to the then clause `s` and a 1-tagged (right) input
routes to the else clause `t`, each behind a `Drop` discarding the
selector's data payload — matching `cond`'s own documented equations. -/
theorem C5_cond_routing :
    (∀ s t : DagTerm, cond s t = DagTerm.Case (DagTerm.Drop s) (DagTerm.Drop t)) ∧
    (∀ s t : DagTerm, ∀ a c : Value,
      eval (cond s t) (Value.Prod (Value.SumL a) c) = eval s c ∧
      eval (cond s t) (Value.Prod (Value.SumR a) c) = eval t c) :=
  ⟨fun _ _ => rfl, fun _ _ _ _ => ⟨rfl, rfl⟩⟩

/-- C6 counterexample: at the concrete input `And([Trivial])` (one sub
instead of two) `compile` panics via `assert!` — it does not surface an
error value to the caller. -/
theorem C6_counterexample :
    compile (.And [.Trivial]) = .panicked ∧
    compile (.And [.Trivial]) ≠ .err Error.EndOfStream := by
  refine ⟨rfl, by decide⟩

/-- C6 (amended): for every And or Or policy whose sub-policy list has
length other than 2, and every Threshold policy with fewer than 2
sub-policies, `compile` aborts with an assertion panic — it neither returns
a term nor surfaces an error value to the caller. -/
theorem C6_arity_violation_panics :
    (∀ subs : List Policy, subs.length ≠ 2 → compile (.And subs) = .panicked) ∧
    (∀ subs : List Policy, subs.length ≠ 2 → compile (.Or subs) = .panicked) ∧
    (∀ (k : Nat) (subs : List Policy), subs.length < 2 →
      compile (.Threshold k subs) = .panicked) := by
  refine ⟨?_, ?_, ?_⟩
  · intro subs h
    rcases subs with _ | ⟨a, _ | ⟨b, _ | ⟨c, t⟩⟩⟩
    · rfl
    · rfl
    · exact absurd rfl h
    · rfl
  · intro subs h
    rcases subs with _ | ⟨a, _ | ⟨b, _ | ⟨c, t⟩⟩⟩
    · rfl
    · rfl
    · exact absurd rfl h
    · rfl
  · intro k subs h
    rcases subs with _ | ⟨a, _ | ⟨b, t⟩⟩
    · rfl
    · rfl
    · simp at h; omega

/-- C6 witness: the amended statement applied at the concrete arity
violations `And([Trivial])`, `Or([Trivial])` and `Threshold(1, [Trivial])`. -/
theorem C6_arity_violation_panics_witness :
    compile (.And [.Trivial]) = .panicked ∧
    compile (.Or [.Trivial]) = .panicked ∧
    compile (.Threshold 1 [.Trivial]) = .panicked :=
  ⟨C6_arity_violation_panics.1 [.Trivial] (by decide),
   C6_arity_violation_panics.2.1 [.Trivial] (by decide),
   C6_arity_violation_panics.2.2 1 [.Trivial] (by decide)⟩

/-- C10: the Threshold arm truncates `k` to `k mod 2^32` (`*k as u32`) when
scribing the comparison constant, so compilation at any `k` coincides with
compilation at `k mod 2^32`; in particular an over-wide `k` does not make
`compile` fail, as the concrete run at `k = 2^32 + 2` shows — it returns the
program comparing the selector sum against `2`. -/
theorem C10_threshold_k_truncated :
    (∀ (k : Nat) (subs : List Policy),
      compile (.Threshold k subs) = compile (.Threshold (k % 4294967296) subs)) ∧
    compile (.Threshold (4294967296 + 2) [.Trivial, .Trivial]) =
      .ok (.Comp
        (.Pair (scribe (valueU32 2))
          (.Drop (.Comp (.Pair (u1_to_u32 .Witness) (u1_to_u32 .Witness))
            (.Jet .Adder32))))
        (.Jet .EqV32)) := by
  refine ⟨?_, rfl⟩
  intro k subs
  rcases subs with _ | ⟨s0, _ | ⟨s1, rest⟩⟩
  · rfl
  · rfl
  · simp only [compile]
    have hm : k % 4294967296 % 4294967296 = k % 4294967296 :=
      Nat.mod_mod_of_dvd k dvd_rfl
    rw [hm]

end Simplicity

